import Mathlib

/-!
# Sine oscillator driven by a visual rotary encoder (`render.cpp`)

A shallow embedding of `render.cpp`: the polling task `readEncoder`, the
initialisation routine `setup`, the audio callback `render` and `cleanup`.

* `float` globals are read over an arbitrary linear ordered field `α`
  (instantiated with `ℚ` to run the model and with `ℝ` to state the
  trigonometric facts); `M_PI` and `sinf` come from `<cmath>` and are
  parameters of the embedding.
* A second reading of `render` (`renderFloat`) keeps the roundings of the C
  arithmetic: finite `float` and `double` values are rational numbers, every
  `double` operation is rounded to binary64 and every store into a `float` to
  binary32, to nearest with ties to even.
* `uint16_t` / `uint8_t` locals are natural numbers reduced modulo `2^16` / `2^8`.
* The sensor object is a parameter (`Peripheral`): every method maps the
  device state to its return value and the next device state.
* Calls into the environment (sensor methods, `printf`, `usleep`,
  `Bela_runAuxiliaryTask`, `audioWrite`) are recorded, in program order, in the
  list every routine returns.
-/

namespace VisualRotaryEncoder

/-! ## Data model -/

/-- The record `sensor.basicInfo` filled by `refreshBasicInfo`. -/
structure BasicInfo where
  PID : Nat
  VID : Nat
  version : Nat
  i2cAddr : Nat
deriving DecidableEq, Repr

/-- Calls issued by `readEncoder` and `setup`, in program order. -/
inductive Event where
  | begin
  | refreshBasicInfo
  | getEncoderValue
  | detectButtonDown
  | setEncoderValue (value : Nat)
  | getGainCoefficient
  | setGainCoefficient (gainValue : Nat)
  | printf (format : String) (arg : Nat)
  | fprintfStderr (message : String)
  | usleep (usec : Nat)
  | runAuxiliaryTask
deriving DecidableEq, Repr

/-- The methods of the global object `sensor`
(`DFRobot_VisualRotaryEncoder_I2C`, declared in a header outside the sources),
taken as a parameter over a device state `σ`. -/
structure Peripheral (σ : Type) where
  begin : σ → Int × σ
  refreshBasicInfo : σ → σ
  basicInfo : σ → BasicInfo
  getEncoderValue : σ → Nat × σ
  setEncoderValue : Nat → σ → σ
  detectButtonDown : σ → Bool × σ
  getGainCoefficient : σ → Nat × σ
  setGainCoefficient : Nat → σ → σ

/-- The three `float` globals of `render.cpp`. -/
structure Globals (α : Type) where
  gFrequency : α
  gPhase : α
  gInverseSampleRate : α
deriving DecidableEq, Repr

/-- The globals of the program: the three floats and the `sensor` object. -/
structure Program (α σ : Type) where
  g : Globals α
  sensor : σ

/-- The fields of `BelaContext` that `render.cpp` reads. -/
structure BelaContext (α : Type) where
  audioSampleRate : α
  audioFrames : Nat
  audioOutChannels : Nat

/-- One call `audioWrite(context, n, channel, out)`. -/
structure AudioWrite (α : Type) where
  frame : Nat
  channel : Nat
  value : α
deriving DecidableEq, Repr

section Code

variable {α σ : Type} [LinearOrderedField α]

/-- Static initialisation: `gFrequency = 440.0`; `gPhase` and
`gInverseSampleRate` have no initialiser and are zero-initialised. -/
def initGlobals : Globals α :=
  { gFrequency := 440.0, gPhase := 0, gInverseSampleRate := 0 }

/-! ## `readEncoder` (lines 15-43) -/

/-- The initial value of the local `pastValue`: `uint16_t pastValue = -1`. -/
def pastValueInit : Nat := 65535

/-- One iteration of the `while` loop of `readEncoder` (lines 23-41), from the
value of the local `pastValue` and the globals; returns the new `pastValue`, the
new globals and the calls issued. -/
def readEncoderBody (P : Peripheral σ) (pastValue : Nat) (s : Program α σ) :
    Nat × Program α σ × List Event :=
  let r := P.getEncoderValue s.sensor
  let encoderValue : Nat := r.1 % 65536
  let printed : List Event :=
    if encoderValue ≠ pastValue then
      [Event.printf "The encoder current counts: %d\n" encoderValue]
    else []
  let pastValue := encoderValue
  let g : Globals α := { s.g with gFrequency := ((encoderValue + 100 : Nat) : α) }
  let b := P.detectButtonDown r.2
  let sensor := if b.1 then P.setEncoderValue 0 b.2 else b.2
  let reset : List Event := if b.1 then [Event.setEncoderValue 0] else []
  (pastValue, { g := g, sensor := sensor },
    [Event.getEncoderValue] ++ printed ++ [Event.detectButtonDown] ++ reset ++
      [Event.usleep 10000])

/-- The `while(!Bela_stopRequested())` loop: the list holds the successive
results of `Bela_stopRequested()`; the loop leaves at the first `true` (and the
run is cut where the list ends). -/
def readEncoderLoop (P : Peripheral σ) :
    List Bool → Nat → Program α σ → Nat × Program α σ × List Event
  | [], pastValue, s => (pastValue, s, [])
  | true :: _, pastValue, s => (pastValue, s, [])
  | false :: stops, pastValue, s =>
    let it := readEncoderBody P pastValue s
    let rest := readEncoderLoop P stops it.1 it.2.1
    (rest.1, rest.2.1, it.2.2 ++ rest.2.2)

/-- The task `readEncoder`: the loop entered with `pastValue = -1`. -/
def readEncoder (P : Peripheral σ) (stops : List Bool) (s : Program α σ) :
    Nat × Program α σ × List Event :=
  readEncoderLoop P stops pastValueInit s

/-! ## `setup` (lines 45-99) -/

/-- The routine `setup`; `NO_ERR` is the driver's success code. Returns the
boolean result, the new globals and the calls issued. -/
def setup (P : Peripheral σ) (NO_ERR : Int) (context : BelaContext α)
    (s : Program α σ) : Bool × Program α σ × List Event :=
  let r := P.begin s.sensor
  if NO_ERR ≠ r.1 then
    (false, { s with sensor := r.2 },
      [Event.begin,
       Event.fprintfStderr
         "Error while initialising sensor. Are the address and bus correct?\n"])
  else
    let sensor := P.refreshBasicInfo r.2
    let info := P.basicInfo sensor
    let g1 := P.getGainCoefficient sensor
    let gainCoefficient : Nat := g1.1 % 256
    let ev1 : List Event :=
      [Event.begin, Event.refreshBasicInfo,
       Event.printf "PID: %#x\n" info.PID,
       Event.printf "VID: %#x\n" info.VID,
       Event.printf "versions: %#x\n" info.version,
       Event.printf "communication address: %#x\n" info.i2cAddr,
       Event.usleep 1000,
       Event.getGainCoefficient,
       Event.printf "Encoder current gain coefficient: %d\n" gainCoefficient]
    let gainCoefficient : Nat := 25
    let sensor := P.setGainCoefficient gainCoefficient g1.2
    let g2 := P.getGainCoefficient sensor
    let ev2 : List Event :=
      [Event.printf "Setting encoder gain coefficient to: %d\n" gainCoefficient,
       Event.setGainCoefficient gainCoefficient,
       Event.usleep 10000,
       Event.getGainCoefficient,
       Event.printf "Encoder current gain coefficient: %d\n" (g2.1 % 256),
       Event.runAuxiliaryTask]
    let g : Globals α :=
      { s.g with gInverseSampleRate := 1.0 / context.audioSampleRate, gPhase := 0.0 }
    (true, { g := g, sensor := g2.2 }, ev1 ++ ev2)

/-! ## `render` (lines 101-119) and `cleanup` -/

/-- Line 104: `float out = 0.8 * sinf(gPhase)`. -/
def oscSample (sinf : α → α) (gPhase : α) : α :=
  0.8 * sinf gPhase

/-- Lines 105-107: `gPhase += 2.0 * M_PI * gFrequency * gInverseSampleRate;`
then `if(gPhase > 2.0 * M_PI) gPhase -= 2.0 * M_PI;`. -/
def advancePhase (M_PI : α) (gFrequency gInverseSampleRate gPhase : α) : α :=
  let gPhase := gPhase + 2.0 * M_PI * gFrequency * gInverseSampleRate
  if gPhase > 2.0 * M_PI then gPhase - 2.0 * M_PI else gPhase

/-- The inner loop (lines 109-117): one `audioWrite` per channel. -/
def writeChannels (context : BelaContext α) (n : Nat) (out : α) : List (AudioWrite α) :=
  (List.range context.audioOutChannels).map fun channel =>
    { frame := n, channel := channel, value := out }

/-- The body of the outer loop (lines 104-117) for frame `n`. -/
def renderFrame (M_PI : α) (sinf : α → α) (context : BelaContext α)
    (st : Globals α × List (AudioWrite α)) (n : Nat) :
    Globals α × List (AudioWrite α) :=
  let g := st.1
  let out := oscSample sinf g.gPhase
  let g := { g with
    gPhase := advancePhase M_PI g.gFrequency g.gInverseSampleRate g.gPhase }
  (g, st.2 ++ writeChannels context n out)

/-- The callback `render`: the outer loop over `n < context->audioFrames`.
Returns the new globals and the `audioWrite` calls in program order. -/
def render (M_PI : α) (sinf : α → α) (context : BelaContext α) (g : Globals α) :
    Globals α × List (AudioWrite α) :=
  (List.range context.audioFrames).foldl (renderFrame M_PI sinf context) (g, [])

/-- The callback `cleanup`: an empty body. -/
def cleanup (_context : BelaContext α) (s : Program α σ) : Program α σ := s

end Code

/-! ## `render` with the roundings of `float` and `double` -/

/-- Rounding of a rational to the nearest integer, ties to the even one. -/
def roundHalfEven (y : ℚ) : ℤ :=
  if y - ⌊y⌋ < 1 / 2 then ⌊y⌋
  else if 1 / 2 < y - ⌊y⌋ then ⌊y⌋ + 1
  else if ⌊y⌋ % 2 = 0 then ⌊y⌋ else ⌊y⌋ + 1

/-- Rounding to a binary floating-point format with `p` significant bits and
least normal exponent `emin`, to nearest with ties to even: `x` is rounded to a
multiple of `2 ^ (e - (p - 1))`, where `2 ^ e ≤ |x| < 2 ^ (e + 1)` and `e` is
not taken below `emin` (subnormal numbers). Finite results only: overflow to
infinity is not part of the model. -/
def roundBinary (p : ℕ) (emin : ℤ) (x : ℚ) : ℚ :=
  if x = 0 then 0
  else
    let e := max (Int.log 2 |x|) emin
    (roundHalfEven (x / 2 ^ (e - (p - 1))) : ℚ) * 2 ^ (e - (p - 1))

/-- Conversion to `float` (binary32: 24 significant bits, exponents from -126). -/
def toFloat (x : ℚ) : ℚ := roundBinary 24 (-126) x

/-- Rounding of a `double` result (binary64: 53 significant bits, exponents
from -1022). -/
def toDouble (x : ℚ) : ℚ := roundBinary 53 (-1022) x

/-- Line 104 with its roundings: `float out = 0.8 * sinf(gPhase)`. The literal
`0.8` is a `double`, the `float` returned by `sinf` is promoted, the product is
a `double` and the initialisation narrows it to `float`. -/
def oscSampleFloat (sinf : ℚ → ℚ) (gPhase : ℚ) : ℚ :=
  toFloat (toDouble (toDouble 0.8 * sinf gPhase))

/-- Lines 105-107 with their roundings: the right-hand sides are `double`
expressions evaluated from left to right with every operation rounded on its
own, the comparison is made in `double`, and each compound assignment narrows
its result to the `float` `gPhase`. -/
def advancePhaseFloat (M_PI : ℚ) (gFrequency gInverseSampleRate gPhase : ℚ) : ℚ :=
  let gPhase := toFloat (toDouble (gPhase
    + toDouble (toDouble (toDouble (2.0 * M_PI) * gFrequency) * gInverseSampleRate)))
  if gPhase > toDouble (2.0 * M_PI) then toFloat (toDouble (gPhase - toDouble (2.0 * M_PI)))
  else gPhase

/-- The body of the outer loop (lines 104-117) for frame `n`, with the
roundings. -/
def renderFrameFloat (M_PI : ℚ) (sinf : ℚ → ℚ) (context : BelaContext ℚ)
    (st : Globals ℚ × List (AudioWrite ℚ)) (n : Nat) :
    Globals ℚ × List (AudioWrite ℚ) :=
  let g := st.1
  let out := oscSampleFloat sinf g.gPhase
  let g := { g with
    gPhase := advancePhaseFloat M_PI g.gFrequency g.gInverseSampleRate g.gPhase }
  (g, st.2 ++ writeChannels context n out)

/-- The callback `render` with the roundings of its arithmetic. -/
def renderFloat (M_PI : ℚ) (sinf : ℚ → ℚ) (context : BelaContext ℚ) (g : Globals ℚ) :
    Globals ℚ × List (AudioWrite ℚ) :=
  (List.range context.audioFrames).foldl (renderFrameFloat M_PI sinf context) (g, [])

/-- The `double` constant `M_PI`, the binary64 number nearest to `π`. -/
def M_PI_double : ℚ := 884279719003555 / 281474976710656

/-- The `float` nearest to `π / 2`, `1.57079637...`. -/
def phaseNearHalfPi : ℚ := 13176795 / 8388608

/-- A `sinf` for the examples, given at one argument only: at the `float`
nearest to `π / 2` the sine is `1 - 9.6e-16`, whose nearest `float` is `1.0f`. -/
def sinfNearHalfPi (x : ℚ) : ℚ := if x = phaseNearHalfPi then 1 else 0

/-- A block of one frame and one channel at 44100 Hz. -/
def context1 : BelaContext ℚ :=
  { audioSampleRate := 44100, audioFrames := 1, audioOutChannels := 1 }

/-- Globals of the running program: `gFrequency = 523`, `gInverseSampleRate`
the `float` nearest to `1 / 44100`, and the phase at the `float` nearest to
`π / 2`. -/
def globalsNearHalfPi : Globals ℚ :=
  { gFrequency := 523, gPhase := phaseNearHalfPi,
    gInverseSampleRate := 6233059 / 274877906944 }

/-! ## A device behind the sensor object -/

/-- Modelled from the spec: the state of the peripheral behind the `sensor`
object, whose driver is not part of the sources (spec sections 3 and 6):
whether the device can be reached, its identity, the identity record buffered by
`refresh_identity`, the encoder count in `[0,1023]`, the gain coefficient and
the pending button edge. -/
structure Device where
  reachable : Bool
  identity : BasicInfo
  buffered : BasicInfo
  count : Fin 1024
  gain : Nat
  pressed : Bool
deriving DecidableEq, Repr

/-- Modelled from the spec: the Peripheral Interface of section 6, whose driver
is not part of the sources. `begin` reports ok (`0`) exactly when the device is
reachable; `get_encoder_value` returns the stored count;
`set_encoder_value` stores a value in `[0,1023]` and ignores any other;
`detect_button_down` is true once per press; `set_gain_coefficient` stores a
value in `[1,51]` and ignores any other. -/
def device : Peripheral Device where
  begin d := (if d.reachable then 0 else -1, d)
  refreshBasicInfo d := { d with buffered := d.identity }
  basicInfo d := d.buffered
  getEncoderValue d := (d.count.val, d)
  setEncoderValue value d :=
    if h : value < 1024 then { d with count := ⟨value, h⟩ } else d
  detectButtonDown d := (d.pressed, { d with pressed := false })
  getGainCoefficient d := (d.gain, d)
  setGainCoefficient gainValue d :=
    if 1 ≤ gainValue ∧ gainValue ≤ 51 then { d with gain := gainValue } else d

/-- A device at rest: reachable, the default identity of the module (PID
`0x01F6`, VID `0x3343`, version `0x0100`, address `0x54`), count `423`. -/
def device423 : Device :=
  { reachable := true
    identity := { PID := 0x01F6, VID := 0x3343, version := 0x0100, i2cAddr := 0x54 }
    buffered := { PID := 0, VID := 0, version := 0, i2cAddr := 0 }
    count := 423
    gain := 10
    pressed := false }

/-- The block of the end-to-end scenario: 4 frames at 44100 Hz, two output
channels. -/
def context4 {α : Type} [LinearOrderedField α] : BelaContext α :=
  { audioSampleRate := 44100, audioFrames := 4, audioOutChannels := 2 }

/-- The program after a first iteration of the polling loop on the device at
count `423`, from the initial globals. -/
def scenario423 {α : Type} [LinearOrderedField α] : Program α Device :=
  (readEncoderBody device pastValueInit { g := initGlobals, sensor := device423 }).2.1

/-! ## The program under its scheduler -/

section Scheduler

variable {α σ : Type} [LinearOrderedField α]

/-- The program state under the audio scheduler: the globals, and the local
`pastValue` of the task `readEncoder` once `setup` has started it. -/
structure Sys (α σ : Type) where
  prog : Program α σ
  pastValue : Option Nat

/-- What can happen next: the scheduler calls `setup`, `render` or `cleanup`,
the polling task runs one iteration of its loop, or the user acts on the device
(turns the knob, presses the button). -/
inductive Action (α σ : Type) where
  | setup (context : BelaContext α)
  | render (context : BelaContext α)
  | cleanup (context : BelaContext α)
  | poll
  | turn (sensor : σ)

/-- The state before `setup`. -/
def Sys.init (sensor : σ) : Sys α σ :=
  { prog := { g := initGlobals, sensor := sensor }, pastValue := none }

/-- One action. `setup` is called while the polling task is not running and
starts it, with `pastValue = -1`, when it succeeds; `poll` needs the task to be
running. -/
def step (P : Peripheral σ) (NO_ERR : Int) (M_PI : α) (sinf : α → α)
    (s : Sys α σ) : Action α σ → Option (Sys α σ)
  | Action.setup context =>
    match s.pastValue with
    | some _ => none
    | none =>
      let r := setup P NO_ERR context s.prog
      some { prog := r.2.1, pastValue := if r.1 then some pastValueInit else none }
  | Action.render context =>
    some { s with prog := { s.prog with g := (render M_PI sinf context s.prog.g).1 } }
  | Action.cleanup context => some { s with prog := cleanup context s.prog }
  | Action.poll =>
    match s.pastValue with
    | none => none
    | some pastValue =>
      let it := readEncoderBody P pastValue s.prog
      some { prog := it.2.1, pastValue := some it.1 }
  | Action.turn sensor => some { s with prog := { s.prog with sensor := sensor } }

/-- A run: the actions of the list, one after the other. -/
def run (P : Peripheral σ) (NO_ERR : Int) (M_PI : α) (sinf : α → α) :
    Sys α σ → List (Action α σ) → Option (Sys α σ)
  | s, [] => some s
  | s, a :: acts =>
    match step P NO_ERR M_PI sinf s a with
    | none => none
    | some s1 => run P NO_ERR M_PI sinf s1 acts

/-- The state invariant of the runs: `gFrequency` is in `[100,1123]`, and
once the polling task runs, either nothing has been observed yet
(`pastValue = -1`) or `gFrequency` is the last observed count plus 100. -/
def Inv (s : Sys α σ) : Prop :=
  (100 ≤ s.prog.g.gFrequency ∧ s.prog.g.gFrequency ≤ 1123) ∧
  ∀ pastValue, s.pastValue = some pastValue →
    pastValue = pastValueInit ∨
      (pastValue ≤ 1023 ∧ s.prog.g.gFrequency = (pastValue : α) + 100)

/-- Successive audio blocks: before each block the polling task has left the
given value in `gFrequency`. -/
def renderBlocks (M_PI : α) (sinf : α → α) :
    Globals α → List (BelaContext α × α) → Globals α
  | g, [] => g
  | g, b :: blocks =>
    renderBlocks M_PI sinf (render M_PI sinf b.1 { g with gFrequency := b.2 }).1 blocks

end Scheduler

/-! ## The polling loop and `setup` -/

section PollingTheorems

variable {α σ : Type} [LinearOrderedField α]

/-- A count in `[0,1023]` is not changed by its storage in a `uint16_t`. -/
theorem uint16_of_count {c : Nat} (hc : c ≤ 1023) : c % 65536 = c :=
  Nat.mod_eq_of_lt (by omega)

/-- The value `readEncoderBody` leaves in `gFrequency`, whatever the state. -/
theorem readEncoderBody_gFrequency (P : Peripheral σ) (pastValue : Nat)
    (s : Program α σ) :
    (readEncoderBody P pastValue s).2.1.g.gFrequency
      = ((((P.getEncoderValue s.sensor).1 % 65536 + 100 : Nat)) : α) := rfl

/-- The value `readEncoderBody` leaves in `pastValue`. -/
theorem readEncoderBody_pastValue (P : Peripheral σ) (pastValue : Nat)
    (s : Program α σ) :
    (readEncoderBody P pastValue s).1 = (P.getEncoderValue s.sensor).1 % 65536 := rfl

/-- A count in `[0,1023]` read by an iteration ends up, plus 100, in
`gFrequency`. -/
theorem readEncoderBody_gFrequency_of_count (P : Peripheral σ) (pastValue : Nat)
    (s : Program α σ) (hc : (P.getEncoderValue s.sensor).1 ≤ 1023) :
    (readEncoderBody P pastValue s).2.1.g.gFrequency
      = (((P.getEncoderValue s.sensor).1 : Nat) : α) + 100 := by
  rw [readEncoderBody_gFrequency, uint16_of_count hc]
  push_cast
  rfl

/-- C1: for every count `c` in `[0,1023]` returned by `getEncoderValue`, and
every prior state (any `pastValue`, any globals, any device state), one
iteration of the loop of `readEncoder` leaves `gFrequency = c + 100`. -/
theorem readEncoderBody_frequency_eq (P : Peripheral σ) (pastValue : Nat)
    (s : Program α σ) (c : Nat) (hread : (P.getEncoderValue s.sensor).1 = c)
    (hc : c ≤ 1023) :
    (readEncoderBody P pastValue s).2.1.g.gFrequency = (c : α) + 100 := by
  subst hread
  exact readEncoderBody_gFrequency_of_count P pastValue s hc

/-- Witness of C1: count `423` read from the device at rest, after a previous
observation of `7` and with `gFrequency = 440`, gives `523`. -/
theorem readEncoderBody_frequency_eq_witness :
    (device.getEncoderValue device423).1 = 423 ∧ 423 ≤ 1023 ∧
    (readEncoderBody device 7
        ({ g := initGlobals, sensor := device423 } : Program ℚ Device)).2.1.g.gFrequency
      = ((423 : Nat) : ℚ) + 100 :=
  ⟨rfl, by decide,
    readEncoderBody_frequency_eq device 7 { g := initGlobals, sensor := device423 } 423
      rfl (by decide)⟩

/-- C7: over a peripheral in which `setEncoderValue v` with `v` in `[0,1023]`
makes `getEncoderValue` return `v`: an iteration of `readEncoder` that sees
`detectButtonDown` return true issues `setEncoderValue(0)` (and no other
`setEncoderValue`), after which the next iteration reads count `0` and leaves
`gFrequency = 100`; an iteration that sees it return false issues no
`setEncoderValue` at all. -/
theorem readEncoderBody_button_reset (P : Peripheral σ)
    (hset : ∀ (v : Nat) (d : σ), v ≤ 1023 →
      (P.getEncoderValue (P.setEncoderValue v d)).1 = v)
    (pastValue : Nat) (s : Program α σ) :
    ((P.detectButtonDown (P.getEncoderValue s.sensor).2).1 = true →
      Event.setEncoderValue 0 ∈ (readEncoderBody P pastValue s).2.2 ∧
      (∀ v, Event.setEncoderValue v ∈ (readEncoderBody P pastValue s).2.2 → v = 0) ∧
      (P.getEncoderValue (readEncoderBody P pastValue s).2.1.sensor).1 = 0 ∧
      (readEncoderBody P (readEncoderBody P pastValue s).1
        (readEncoderBody P pastValue s).2.1).2.1.g.gFrequency = 100) ∧
    ((P.detectButtonDown (P.getEncoderValue s.sensor).2).1 = false →
      ∀ v, Event.setEncoderValue v ∉ (readEncoderBody P pastValue s).2.2) := by
  constructor
  · intro hb
    have hsensor : (readEncoderBody P pastValue s).2.1.sensor
        = P.setEncoderValue 0 (P.detectButtonDown (P.getEncoderValue s.sensor).2).2 := by
      simp [readEncoderBody, hb]
    have hzero : (P.getEncoderValue (readEncoderBody P pastValue s).2.1.sensor).1 = 0 := by
      rw [hsensor]
      exact hset 0 _ (by omega)
    refine ⟨?_, ?_, hzero, ?_⟩
    · simp [readEncoderBody, hb]
    · intro v hv
      by_cases hp : (P.getEncoderValue s.sensor).1 % 65536 = pastValue <;>
        simp [readEncoderBody, hb, hp] at hv <;> exact hv
    · rw [readEncoderBody_gFrequency, hzero]
      norm_num
  · intro hb v hv
    by_cases hp : (P.getEncoderValue s.sensor).1 % 65536 = pastValue <;>
      simp [readEncoderBody, hb, hp] at hv

/-- Witness of C7: the device at count `423` with the button pressed. -/
theorem readEncoderBody_button_reset_witness :
    (device.detectButtonDown
      (device.getEncoderValue { device423 with pressed := true }).2).1 = true ∧
    Event.setEncoderValue 0 ∈
      (readEncoderBody device 423
        ({ g := initGlobals, sensor := { device423 with pressed := true } } :
          Program ℚ Device)).2.2 ∧
    (readEncoderBody device
      (readEncoderBody device 423
        ({ g := initGlobals, sensor := { device423 with pressed := true } } :
          Program ℚ Device)).1
      (readEncoderBody device 423
        ({ g := initGlobals, sensor := { device423 with pressed := true } } :
          Program ℚ Device)).2.1).2.1.g.gFrequency = 100 :=
  have h := (readEncoderBody_button_reset (α := ℚ) device
    (by
      intro v d hv
      have hlt : v < 1024 := by omega
      simp [device, hlt])
    423 { g := initGlobals, sensor := { device423 with pressed := true } }).1 rfl
  ⟨rfl, h.1, h.2.2.2⟩

/-- C5: `setup` returns `false` if and only if `begin()` does not return
`NO_ERR`; in that case `Bela_runAuxiliaryTask` is not called, no gain
coefficient is read or written, and the float globals (`gPhase` and
`gInverseSampleRate` among them) are left as they were. -/
theorem setup_false_iff (P : Peripheral σ) (NO_ERR : Int) (context : BelaContext α)
    (s : Program α σ) :
    ((setup P NO_ERR context s).1 = false ↔ (P.begin s.sensor).1 ≠ NO_ERR) ∧
    ((setup P NO_ERR context s).1 = false →
      Event.runAuxiliaryTask ∉ (setup P NO_ERR context s).2.2 ∧
      Event.getGainCoefficient ∉ (setup P NO_ERR context s).2.2 ∧
      (∀ v, Event.setGainCoefficient v ∉ (setup P NO_ERR context s).2.2) ∧
      (setup P NO_ERR context s).2.1.g.gPhase = s.g.gPhase ∧
      (setup P NO_ERR context s).2.1.g.gInverseSampleRate = s.g.gInverseSampleRate ∧
      (setup P NO_ERR context s).2.1.g = s.g) := by
  by_cases h : NO_ERR = (P.begin s.sensor).1
  · have hne : ¬ (P.begin s.sensor).1 ≠ NO_ERR := fun hc => hc h.symm
    simp [setup, h]
  · have hne : (P.begin s.sensor).1 ≠ NO_ERR := fun hc => h hc.symm
    simp [setup, h, hne]

/-- Witness of C5: an unreachable device makes `setup` fail without starting
the polling task. -/
theorem setup_false_iff_witness :
    (setup device 0 (context4 : BelaContext ℚ)
      { g := initGlobals, sensor := { device423 with reachable := false } }).1 = false ∧
    Event.runAuxiliaryTask ∉
      (setup device 0 (context4 : BelaContext ℚ)
        { g := initGlobals, sensor := { device423 with reachable := false } }).2.2 :=
  ⟨rfl, ((setup_false_iff device 0 (context4 : BelaContext ℚ)
      { g := initGlobals, sensor := { device423 with reachable := false } }).2 rfl).1⟩

end PollingTheorems

/-! ## Reachable states -/

section Reachability

variable {α σ : Type} [LinearOrderedField α]

/-- The outer loop of `render` writes neither `gFrequency` nor
`gInverseSampleRate`. -/
theorem foldl_renderFrame_frozen (M_PI : α) (sinf : α → α) (context : BelaContext α)
    (frames : List Nat) (st : Globals α × List (AudioWrite α)) :
    (frames.foldl (renderFrame M_PI sinf context) st).1.gFrequency = st.1.gFrequency ∧
    (frames.foldl (renderFrame M_PI sinf context) st).1.gInverseSampleRate
      = st.1.gInverseSampleRate := by
  induction frames generalizing st with
  | nil => exact ⟨rfl, rfl⟩
  | cons n frames ih =>
    rw [List.foldl_cons]
    exact ⟨(ih _).1, (ih _).2⟩

/-- The callback `render` leaves `gFrequency` as it was. -/
theorem render_gFrequency (M_PI : α) (sinf : α → α) (context : BelaContext α)
    (g : Globals α) : (render M_PI sinf context g).1.gFrequency = g.gFrequency :=
  (foldl_renderFrame_frozen M_PI sinf context _ (g, [])).1

/-- The callback `render` leaves `gInverseSampleRate` as it was. -/
theorem render_gInverseSampleRate (M_PI : α) (sinf : α → α) (context : BelaContext α)
    (g : Globals α) :
    (render M_PI sinf context g).1.gInverseSampleRate = g.gInverseSampleRate :=
  (foldl_renderFrame_frozen M_PI sinf context _ (g, [])).2

/-- The routine `setup` leaves `gFrequency` as it was. -/
theorem setup_gFrequency (P : Peripheral σ) (NO_ERR : Int) (context : BelaContext α)
    (s : Program α σ) : (setup P NO_ERR context s).2.1.g.gFrequency = s.g.gFrequency := by
  by_cases h : NO_ERR = (P.begin s.sensor).1 <;> simp [setup, h]

/-- What `setup` tells about the task: it is started exactly on success. -/
theorem setup_result_cases (P : Peripheral σ) (NO_ERR : Int) (context : BelaContext α)
    (s : Program α σ) :
    (setup P NO_ERR context s).1 = true ∨ (setup P NO_ERR context s).1 = false := by
  cases (setup P NO_ERR context s).1 <;> simp

/-- The invariant holds before `setup`. -/
theorem inv_init (sensor : σ) : Inv (Sys.init sensor : Sys α σ) := by
  refine ⟨⟨?_, ?_⟩, ?_⟩
  · show (100 : α) ≤ 440.0
    norm_num
  · show (440.0 : α) ≤ 1123
    norm_num
  · intro pastValue h
    simp [Sys.init] at h

/-- Every action keeps the invariant, when the encoder reads are in `[0,1023]`. -/
theorem inv_step (P : Peripheral σ) (NO_ERR : Int) (M_PI : α) (sinf : α → α)
    (hread : ∀ d, (P.getEncoderValue d).1 ≤ 1023)
    (s s1 : Sys α σ) (a : Action α σ) (hs : Inv s)
    (hstep : step P NO_ERR M_PI sinf s a = some s1) : Inv s1 := by
  cases a with
  | setup context =>
    cases hpv : s.pastValue with
    | some pv => simp [step, hpv] at hstep
    | none =>
      simp only [step, hpv, Option.some.injEq] at hstep
      subst hstep
      refine ⟨by simpa [setup_gFrequency] using hs.1, ?_⟩
      intro pastValue h
      left
      rcases setup_result_cases P NO_ERR context s.prog with hb | hb
      · simp only [hb, if_true, Option.some.injEq] at h
        exact h.symm
      · simp [hb] at h
  | render context =>
    simp only [step, Option.some.injEq] at hstep
    subst hstep
    refine ⟨by simpa [render_gFrequency] using hs.1, ?_⟩
    intro pastValue h
    simpa [render_gFrequency] using hs.2 pastValue h
  | cleanup context =>
    simp only [step, cleanup, Option.some.injEq] at hstep
    subst hstep
    exact hs
  | poll =>
    cases hpv : s.pastValue with
    | none => simp [step, hpv] at hstep
    | some pv =>
      simp only [step, hpv, Option.some.injEq] at hstep
      subst hstep
      have hc := hread s.prog.sensor
      have hfreq : (readEncoderBody P pv s.prog).2.1.g.gFrequency
          = (((P.getEncoderValue s.prog.sensor).1 : Nat) : α) + 100 :=
        readEncoderBody_gFrequency_of_count P pv s.prog hc
      refine ⟨⟨?_, ?_⟩, ?_⟩
      · show (100 : α) ≤ (readEncoderBody P pv s.prog).2.1.g.gFrequency
        rw [hfreq]
        have h0 : (0 : α) ≤ (((P.getEncoderValue s.prog.sensor).1 : Nat) : α) :=
          Nat.cast_nonneg _
        linarith
      · show (readEncoderBody P pv s.prog).2.1.g.gFrequency ≤ 1123
        rw [hfreq]
        have h1 : (((P.getEncoderValue s.prog.sensor).1 : Nat) : α) ≤ ((1023 : Nat) : α) :=
          Nat.cast_le.mpr hc
        have h2 : ((1023 : Nat) : α) = 1023 := by norm_num
        linarith
      · intro pastValue h
        right
        simp only [Option.some.injEq] at h
        subst h
        rw [readEncoderBody_pastValue, uint16_of_count hc]
        exact ⟨hc, hfreq⟩
  | turn sensor =>
    simp only [step, Option.some.injEq] at hstep
    subst hstep
    exact hs

/-- Every state of a run from the initial state satisfies the invariant. -/
theorem inv_run (P : Peripheral σ) (NO_ERR : Int) (M_PI : α) (sinf : α → α)
    (hread : ∀ d, (P.getEncoderValue d).1 ≤ 1023)
    (acts : List (Action α σ)) (s0 s : Sys α σ) (hs : Inv s0)
    (hrun : run P NO_ERR M_PI sinf s0 acts = some s) : Inv s := by
  induction acts generalizing s0 with
  | nil =>
    simp only [run, Option.some.injEq] at hrun
    subst hrun
    exact hs
  | cons a acts ih =>
    cases hstep : step P NO_ERR M_PI sinf s0 a with
    | none => simp [run, hstep] at hrun
    | some s1 =>
      simp only [run, hstep] at hrun
      exact ih s1 (inv_step P NO_ERR M_PI sinf hread s0 s1 a hs hstep) hrun

/-- The `poll` actions of a run are the iterations of the loop of `readEncoder`:
`k` polls in a row leave what the loop leaves after `k` iterations. -/
theorem run_poll_eq_readEncoderLoop (P : Peripheral σ) (NO_ERR : Int) (M_PI : α)
    (sinf : α → α) (k : Nat) (pastValue : Nat) (prog : Program α σ) :
    run P NO_ERR M_PI sinf { prog := prog, pastValue := some pastValue }
        (List.replicate k Action.poll)
      = some { prog := (readEncoderLoop P (List.replicate k false) pastValue prog).2.1,
               pastValue := some (readEncoderLoop P (List.replicate k false)
                 pastValue prog).1 } := by
  induction k generalizing pastValue prog with
  | zero => rfl
  | succ k ih =>
    simp only [List.replicate_succ, run, step, readEncoderLoop]
    exact ih _ _

end Reachability

section ReachabilityClaims

variable {α σ : Type} [LinearOrderedField α]

/-- C9: `gFrequency` lies in `[100,1123]` in every state the program reaches
from its initial state while the encoder reads are in `[0,1023]`, under any
interleaving of `setup`, `render`, `cleanup`, iterations of the polling loop and
changes of the device; and from such a state `setup`, `render` and `cleanup`
leave `gFrequency` as it is. -/
theorem gFrequency_range (P : Peripheral σ) (NO_ERR : Int) (M_PI : α) (sinf : α → α)
    (hread : ∀ d, (P.getEncoderValue d).1 ≤ 1023)
    (sensor : σ) (acts : List (Action α σ)) (s : Sys α σ)
    (hrun : run P NO_ERR M_PI sinf (Sys.init sensor) acts = some s) :
    (100 ≤ s.prog.g.gFrequency ∧ s.prog.g.gFrequency ≤ 1123) ∧
    ∀ context : BelaContext α,
      (setup P NO_ERR context s.prog).2.1.g.gFrequency = s.prog.g.gFrequency ∧
      (render M_PI sinf context s.prog.g).1.gFrequency = s.prog.g.gFrequency ∧
      (cleanup context s.prog).g.gFrequency = s.prog.g.gFrequency :=
  ⟨(inv_run P NO_ERR M_PI sinf hread acts (Sys.init sensor) s (inv_init sensor) hrun).1,
    fun context =>
      ⟨setup_gFrequency P NO_ERR context s.prog,
        render_gFrequency M_PI sinf context s.prog.g, rfl⟩⟩

/-- Every read of the device of the model is in `[0,1023]`. -/
theorem device_reads_in_range (d : Device) : (device.getEncoderValue d).1 ≤ 1023 := by
  have hlt := d.count.isLt
  simp only [device]
  omega

/-- Witness of C9: `setup`, one iteration of the polling loop on the device at
count `423`, then one audio block. -/
theorem gFrequency_range_witness :
    ∃ s : Sys ℚ Device,
      run device 0 (3 : ℚ) (fun x => x) (Sys.init device423)
        [Action.setup context4, Action.poll, Action.render context4] = some s ∧
      (100 ≤ s.prog.g.gFrequency ∧ s.prog.g.gFrequency ≤ 1123) :=
  ⟨_, rfl,
    (gFrequency_range device 0 (3 : ℚ) (fun x => x) device_reads_in_range device423
      [Action.setup context4, Action.poll, Action.render context4] _ rfl).1⟩

end ReachabilityClaims

/-! ## The audio callback -/

section RenderTheorems

variable {α : Type} [LinearOrderedField α]

/-- The inner loop issues one `audioWrite` per channel. -/
theorem writeChannels_length {β : Type} (context : BelaContext β) (n : Nat) (out : β) :
    (writeChannels context n out).length = context.audioOutChannels := by
  simp [writeChannels]

/-- The `channel`-th call of the inner loop writes `out` to `(n, channel)`. -/
theorem writeChannels_getElem? {β : Type} (context : BelaContext β) (n : Nat) (out : β)
    (channel : Nat) (h : channel < context.audioOutChannels) :
    (writeChannels context n out)[channel]?
      = some { frame := n, channel := channel, value := out } := by
  simp [writeChannels, List.getElem?_map, List.getElem?_range h]

/-- The first `N` iterations of the outer loop of `render`: the phase has been
advanced `N` times, and the call number `n * audioOutChannels + channel` writes
the sample of frame `n` to `(n, channel)`. -/
theorem render_frames (M_PI : α) (sinf : α → α) (context : BelaContext α)
    (g : Globals α) (N : Nat) :
    ((List.range N).foldl (renderFrame M_PI sinf context) (g, [])).1
      = { g with
          gPhase := (advancePhase M_PI g.gFrequency g.gInverseSampleRate)^[N] g.gPhase } ∧
    ((List.range N).foldl (renderFrame M_PI sinf context) (g, [])).2.length
      = N * context.audioOutChannels ∧
    ∀ n, n < N → ∀ channel, channel < context.audioOutChannels →
      ((List.range N).foldl (renderFrame M_PI sinf context)
          (g, [])).2[n * context.audioOutChannels + channel]?
        = some { frame := n, channel := channel,
                 value := oscSample sinf
                   ((advancePhase M_PI g.gFrequency g.gInverseSampleRate)^[n] g.gPhase) } := by
  induction N with
  | zero =>
    refine ⟨rfl, by simp, ?_⟩
    intro n hn
    omega
  | succ N ih =>
    obtain ⟨hg, hlen, hget⟩ := ih
    rw [List.range_succ, List.foldl_append, List.foldl_cons, List.foldl_nil]
    refine ⟨?_, ?_, ?_⟩
    · simp only [renderFrame, hg, Function.iterate_succ_apply']
    · simp only [renderFrame, List.length_append, hlen, writeChannels_length]
      rw [Nat.succ_mul]
    · intro n hn channel hch
      simp only [renderFrame]
      by_cases hlt : n < N
      · have hle : (n + 1) * context.audioOutChannels ≤ N * context.audioOutChannels :=
          Nat.mul_le_mul_right _ hlt
        rw [Nat.succ_mul] at hle
        rw [List.getElem?_append_left (by rw [hlen]; omega)]
        exact hget n hlt channel hch
      · have hn : n = N := by omega
        subst hn
        rw [List.getElem?_append_right (by rw [hlen]; omega), hlen, Nat.add_sub_cancel_left,
          writeChannels_getElem? _ _ _ _ hch, hg]

/-- Every value the outer loop of `render` writes is a sample `oscSample`. -/
theorem foldl_renderFrame_values (M_PI : α) (sinf : α → α) (context : BelaContext α)
    (Q : α → Prop) (hQ : ∀ phase, Q (oscSample sinf phase)) (frames : List Nat)
    (st : Globals α × List (AudioWrite α)) (hst : ∀ w ∈ st.2, Q w.value) :
    ∀ w ∈ (frames.foldl (renderFrame M_PI sinf context) st).2, Q w.value := by
  induction frames generalizing st with
  | nil => exact hst
  | cons n frames ih =>
    rw [List.foldl_cons]
    apply ih
    intro w hw
    simp only [renderFrame, List.mem_append] at hw
    rcases hw with hw | hw
    · exact hst w hw
    · simp only [writeChannels, List.mem_map] at hw
      obtain ⟨channel, _, rfl⟩ := hw
      exact hQ _

/-- The sample of the oscillator over the reals is at most `0.8` in absolute
value. -/
theorem abs_oscSample_le (phase : ℝ) : |oscSample Real.sin phase| ≤ 0.8 := by
  unfold oscSample
  rw [abs_mul]
  have h1 : |(0.8 : ℝ)| = 0.8 := abs_of_nonneg (by norm_num)
  have h2 := Real.abs_sin_le_one phase
  rw [h1]
  nlinarith

end RenderTheorems

/-! ## The phase accumulator -/

section PhaseTheorems

variable {α : Type} [LinearOrderedField α]

/-- Without wrap: when the advanced phase does not exceed `2 * M_PI`, it is
kept. -/
theorem advancePhase_of_le (M_PI f isr phase : α)
    (h : phase + 2 * M_PI * f * isr ≤ 2 * M_PI) :
    advancePhase M_PI f isr phase = phase + 2 * M_PI * f * isr := by
  have h2 : (2.0 : α) = 2 := by norm_num
  simp only [advancePhase, h2]
  rw [if_neg (not_lt.mpr h)]

/-- With wrap: when the advanced phase exceeds `2 * M_PI`, `2 * M_PI` is
subtracted once. -/
theorem advancePhase_of_gt (M_PI f isr phase : α)
    (h : 2 * M_PI < phase + 2 * M_PI * f * isr) :
    advancePhase M_PI f isr phase = phase + 2 * M_PI * f * isr - 2 * M_PI := by
  have h2 : (2.0 : α) = 2 := by norm_num
  simp only [advancePhase, h2]
  rw [if_pos h]

/-- One step keeps the phase in `[0, 2 * M_PI]` when the increment is in
`[0, 2 * M_PI]`. -/
theorem advancePhase_mem_closed (M_PI f isr phase : α)
    (hd0 : 0 ≤ 2 * M_PI * f * isr) (hd : 2 * M_PI * f * isr ≤ 2 * M_PI)
    (h0 : 0 ≤ phase) (h1 : phase ≤ 2 * M_PI) :
    0 ≤ advancePhase M_PI f isr phase ∧ advancePhase M_PI f isr phase ≤ 2 * M_PI := by
  rcases le_or_lt (phase + 2 * M_PI * f * isr) (2 * M_PI) with h | h
  · rw [advancePhase_of_le M_PI f isr phase h]
    exact ⟨by linarith, h⟩
  · rw [advancePhase_of_gt M_PI f isr phase h]
    exact ⟨by linarith, by linarith⟩

/-- Any number of steps keeps the phase in `[0, 2 * M_PI]` when the increment
is in `[0, 2 * M_PI]`. -/
theorem iterate_advancePhase_mem_closed (M_PI f isr phase : α)
    (hd0 : 0 ≤ 2 * M_PI * f * isr) (hd : 2 * M_PI * f * isr ≤ 2 * M_PI)
    (h0 : 0 ≤ phase) (h1 : phase ≤ 2 * M_PI) (k : Nat) :
    0 ≤ (advancePhase M_PI f isr)^[k] phase ∧
    (advancePhase M_PI f isr)^[k] phase ≤ 2 * M_PI := by
  induction k with
  | zero => exact ⟨h0, h1⟩
  | succ k ih =>
    rw [Function.iterate_succ_apply']
    exact advancePhase_mem_closed M_PI f isr _ hd0 hd ih.1 ih.2

/-- The phase `render` leaves is the phase advanced `audioFrames` times. -/
theorem render_gPhase (M_PI : α) (sinf : α → α) (context : BelaContext α)
    (g : Globals α) :
    (render M_PI sinf context g).1.gPhase
      = (advancePhase M_PI g.gFrequency g.gInverseSampleRate)^[context.audioFrames]
          g.gPhase := by
  have h := (render_frames M_PI sinf context g context.audioFrames).1
  show ((List.range context.audioFrames).foldl (renderFrame M_PI sinf context)
    (g, [])).1.gPhase = _
  rw [h]

/-- Successive blocks keep the phase in `[0, 2 * M_PI]` when the increment of
every block is in `[0, 2 * M_PI]`. -/
theorem renderBlocks_mem_closed (M_PI : α) (sinf : α → α)
    (blocks : List (BelaContext α × α)) (g : Globals α)
    (hblocks : ∀ b ∈ blocks, 0 ≤ 2 * M_PI * b.2 * g.gInverseSampleRate ∧
      2 * M_PI * b.2 * g.gInverseSampleRate ≤ 2 * M_PI)
    (h0 : 0 ≤ g.gPhase) (h1 : g.gPhase ≤ 2 * M_PI) :
    0 ≤ (renderBlocks M_PI sinf g blocks).gPhase ∧
    (renderBlocks M_PI sinf g blocks).gPhase ≤ 2 * M_PI := by
  induction blocks generalizing g with
  | nil => exact ⟨h0, h1⟩
  | cons b blocks ih =>
    simp only [renderBlocks]
    have hb := hblocks b (List.mem_cons_self _ _)
    have hisr : (render M_PI sinf b.1 { g with gFrequency := b.2 }).1.gInverseSampleRate
        = g.gInverseSampleRate := render_gInverseSampleRate M_PI sinf b.1 _
    have hphase := iterate_advancePhase_mem_closed M_PI b.2 g.gInverseSampleRate g.gPhase
      hb.1 hb.2 h0 h1 b.1.audioFrames
    apply ih
    · intro b1 hb1
      rw [hisr]
      exact hblocks b1 (List.mem_cons_of_mem _ hb1)
    · rw [render_gPhase]
      exact hphase.1
    · rw [render_gPhase]
      exact hphase.2

/-- While `k` increments `d` fit in `2 * M_PI`, `k` steps from phase 0 give
`k * d`: no wrap occurs. -/
theorem iterate_advancePhase_of_le (M_PI f isr : α) (hd0 : 0 ≤ 2 * M_PI * f * isr)
    (k : Nat) (hk : (k : α) * (2 * M_PI * f * isr) ≤ 2 * M_PI) :
    (advancePhase M_PI f isr)^[k] 0 = (k : α) * (2 * M_PI * f * isr) := by
  induction k with
  | zero => simp
  | succ k ih =>
    have hcast : ((k + 1 : Nat) : α) = (k : α) + 1 := by push_cast; rfl
    rw [hcast] at hk ⊢
    have hk1 : (k : α) * (2 * M_PI * f * isr) ≤ 2 * M_PI := by nlinarith
    rw [Function.iterate_succ_apply', ih hk1, advancePhase_of_le _ _ _ _ (by linarith)]
    ring

/-- What a successful `setup` leaves in the globals. -/
theorem setup_true_globals {σ : Type} (P : Peripheral σ) (NO_ERR : Int)
    (context : BelaContext α) (s : Program α σ)
    (hok : (setup P NO_ERR context s).1 = true) :
    (setup P NO_ERR context s).2.1.g
      = { gFrequency := s.g.gFrequency, gPhase := 0,
          gInverseSampleRate := 1 / context.audioSampleRate } := by
  by_cases h : NO_ERR = (P.begin s.sensor).1
  · have h1 : (1.0 : α) = 1 := by norm_num
    have h0 : (0.0 : α) = 0 := by norm_num
    simp [setup, h, h1, h0]
  · simp [setup, h] at hok

end PhaseTheorems

/-! ## The phase accumulator over the reals -/

section RealClaims

/-- C2, as stated, fails: at sample rate 44100 and frequency 100 (encoder count
0) the phase `2π * 440/441` of `[0, 2π)` is advanced to exactly `2π`, which the
strict test `gPhase > 2.0 * M_PI` does not wrap; and at sample rate 100 and
frequency 1123 one subtraction leaves the phase `0` above `2π`. -/
theorem advancePhase_half_open_counterexample :
    ((0 : ℝ) ≤ 2 * Real.pi * (440 / 441) ∧ 2 * Real.pi * (440 / 441) < 2 * Real.pi ∧
      (0 : ℝ) < 44100 ∧
      advancePhase Real.pi 100 (1 / 44100) (2 * Real.pi * (440 / 441)) = 2 * Real.pi ∧
      ¬ advancePhase Real.pi 100 (1 / 44100) (2 * Real.pi * (440 / 441)) < 2 * Real.pi) ∧
    ((0 : ℝ) < 100 ∧ 2 * Real.pi < advancePhase Real.pi 1123 (1 / 100) 0) := by
  have hpi := Real.pi_pos
  have hA : advancePhase Real.pi 100 (1 / 44100) (2 * Real.pi * (440 / 441)) = 2 * Real.pi := by
    rw [advancePhase_of_le _ _ _ _ (by linarith)]
    ring
  have hB : advancePhase Real.pi 1123 (1 / 100) 0
      = 0 + 2 * Real.pi * 1123 * (1 / 100) - 2 * Real.pi :=
    advancePhase_of_gt _ _ _ _ (by linarith)
  refine ⟨⟨by linarith, by linarith, by norm_num, hA, ?_⟩, by norm_num, ?_⟩
  · rw [hA]
    exact lt_irrefl _
  · rw [hB]
    linarith

/-- C2, amended: for every starting phase in `[0, 2π)`, every frequency in
`[100, 1123]` and every sample rate not below the frequency, the phase after one
step lies in `[0, 2π]`, and in `[0, 2π)` unless the advanced phase is exactly
`2π`. -/
theorem advancePhase_range (phase f sr : ℝ) (h0 : 0 ≤ phase)
    (h1 : phase < 2 * Real.pi) (hf0 : 100 ≤ f) (_hf1 : f ≤ 1123) (hsr : f ≤ sr) :
    0 ≤ advancePhase Real.pi f (1 / sr) phase ∧
    advancePhase Real.pi f (1 / sr) phase ≤ 2 * Real.pi ∧
    (phase + 2 * Real.pi * f * (1 / sr) ≠ 2 * Real.pi →
      advancePhase Real.pi f (1 / sr) phase < 2 * Real.pi) := by
  have hpi := Real.pi_pos
  have hsr0 : 0 < sr := by linarith
  have hq0 : 0 ≤ f * (1 / sr) := by positivity
  have hq1 : f * (1 / sr) ≤ 1 := by
    rw [mul_one_div]
    exact (div_le_one hsr0).mpr hsr
  have hd0 : 0 ≤ 2 * Real.pi * f * (1 / sr) := by
    have h := mul_nonneg (by linarith : (0 : ℝ) ≤ 2 * Real.pi) hq0
    linarith [mul_assoc (2 * Real.pi) f (1 / sr)]
  have hd : 2 * Real.pi * f * (1 / sr) ≤ 2 * Real.pi := by
    have h := mul_le_mul_of_nonneg_left hq1 (by linarith : (0 : ℝ) ≤ 2 * Real.pi)
    linarith [mul_assoc (2 * Real.pi) f (1 / sr)]
  have hclosed := advancePhase_mem_closed Real.pi f (1 / sr) phase hd0 hd h0 h1.le
  refine ⟨hclosed.1, hclosed.2, ?_⟩
  intro hne
  rcases le_or_lt (phase + 2 * Real.pi * f * (1 / sr)) (2 * Real.pi) with h | h
  · rw [advancePhase_of_le _ _ _ _ h]
    exact lt_of_le_of_ne h hne
  · rw [advancePhase_of_gt _ _ _ _ h]
    linarith

/-- Witness of the amended C2: phase `0`, frequency 523, sample rate 44100. -/
theorem advancePhase_range_witness :
    (0 : ℝ) ≤ 0 ∧ (0 : ℝ) < 2 * Real.pi ∧ (100 : ℝ) ≤ 523 ∧ (523 : ℝ) ≤ 1123 ∧
    (523 : ℝ) ≤ 44100 ∧
    0 ≤ advancePhase Real.pi 523 (1 / 44100) 0 ∧
    advancePhase Real.pi 523 (1 / 44100) 0 ≤ 2 * Real.pi :=
  have h := advancePhase_range 0 523 44100 le_rfl (by linarith [Real.pi_pos])
    (by norm_num) (by norm_num) (by norm_num)
  ⟨le_rfl, by linarith [Real.pi_pos], by norm_num, by norm_num, by norm_num, h.1, h.2.1⟩

/-- C10: when the increment `d = 2π * gFrequency * gInverseSampleRate` is in
`[0, 2π]`, a phase in `[0, 2π]` stays in `[0, 2π]` after one step, after any
number of steps, after a block of `render`, and after any number of blocks whose
increments are all in `[0, 2π]`; and for the increment `6π` (frequency 132300 at
sample rate 44100) the single subtraction leaves the phase `0` at `4π`, above
`2π`. -/
theorem phase_closed_interval_invariant (g : Globals ℝ)
    (hd0 : 0 ≤ 2 * Real.pi * g.gFrequency * g.gInverseSampleRate)
    (hd : 2 * Real.pi * g.gFrequency * g.gInverseSampleRate ≤ 2 * Real.pi)
    (h0 : 0 ≤ g.gPhase) (h1 : g.gPhase ≤ 2 * Real.pi) :
    (0 ≤ advancePhase Real.pi g.gFrequency g.gInverseSampleRate g.gPhase ∧
      advancePhase Real.pi g.gFrequency g.gInverseSampleRate g.gPhase ≤ 2 * Real.pi) ∧
    (∀ k : Nat,
      0 ≤ (advancePhase Real.pi g.gFrequency g.gInverseSampleRate)^[k] g.gPhase ∧
      (advancePhase Real.pi g.gFrequency g.gInverseSampleRate)^[k] g.gPhase
        ≤ 2 * Real.pi) ∧
    (∀ context : BelaContext ℝ,
      0 ≤ (render Real.pi Real.sin context g).1.gPhase ∧
      (render Real.pi Real.sin context g).1.gPhase ≤ 2 * Real.pi) ∧
    (∀ blocks : List (BelaContext ℝ × ℝ),
      (∀ b ∈ blocks, 0 ≤ 2 * Real.pi * b.2 * g.gInverseSampleRate ∧
        2 * Real.pi * b.2 * g.gInverseSampleRate ≤ 2 * Real.pi) →
      0 ≤ (renderBlocks Real.pi Real.sin g blocks).gPhase ∧
      (renderBlocks Real.pi Real.sin g blocks).gPhase ≤ 2 * Real.pi) ∧
    (2 * Real.pi < 2 * Real.pi * 132300 * (1 / 44100) ∧
      advancePhase Real.pi 132300 (1 / 44100) 0 = 4 * Real.pi ∧
      2 * Real.pi < advancePhase Real.pi 132300 (1 / 44100) 0) := by
  have hpi := Real.pi_pos
  have hC : advancePhase Real.pi 132300 (1 / 44100) 0 = 4 * Real.pi := by
    rw [advancePhase_of_gt _ _ _ _ (by linarith)]
    ring
  refine ⟨advancePhase_mem_closed _ _ _ _ hd0 hd h0 h1,
    iterate_advancePhase_mem_closed _ _ _ _ hd0 hd h0 h1, ?_, ?_, ?_, hC, ?_⟩
  · intro context
    rw [render_gPhase]
    exact iterate_advancePhase_mem_closed _ _ _ _ hd0 hd h0 h1 _
  · intro blocks hblocks
    exact renderBlocks_mem_closed Real.pi Real.sin blocks g hblocks h0 h1
  · linarith
  · rw [hC]
    linarith

/-- Witness of C10: the globals of the scenario (frequency 523, sample rate
44100) at the closed end `gPhase = 2π`. -/
theorem phase_closed_interval_invariant_witness :
    (0 : ℝ) ≤ 2 * Real.pi * 523 * (1 / 44100) ∧
    2 * Real.pi * 523 * (1 / 44100) ≤ 2 * Real.pi ∧
    0 ≤ advancePhase Real.pi 523 (1 / 44100) (2 * Real.pi) ∧
    advancePhase Real.pi 523 (1 / 44100) (2 * Real.pi) ≤ 2 * Real.pi :=
  have hd0 : (0 : ℝ) ≤ 2 * Real.pi * 523 * (1 / 44100) := by linarith [Real.pi_pos]
  have hd : 2 * Real.pi * 523 * (1 / 44100) ≤ 2 * Real.pi := by linarith [Real.pi_pos]
  have h := (phase_closed_interval_invariant
    { gFrequency := 523, gPhase := 2 * Real.pi, gInverseSampleRate := 1 / 44100 }
    hd0 hd (by linarith [Real.pi_pos]) le_rfl).1
  ⟨hd0, hd, h.1, h.2⟩

/-- C6: after a successful `setup` at sample rate `sr > 0`, with
`gFrequency = f ≥ 0` and a block of `N` frames such that `N * (2π * f / sr) ≤ 2π`,
`render` advances the phase from 0 by exactly `2π * f / sr` per frame: the phase
before frame `k` is `k * (2π * f / sr)`, the sample written to every channel of
frame `k` is `0.8 * sin(k * (2π * f / sr))`, and the phase after the block is
`N * (2π * f / sr)`. -/
theorem render_block_after_setup {σ : Type} (P : Peripheral σ) (NO_ERR : Int)
    (context : BelaContext ℝ) (s : Program ℝ σ)
    (hok : (setup P NO_ERR context s).1 = true)
    (hf : 0 ≤ s.g.gFrequency) (hsr : 0 < context.audioSampleRate)
    (hN : (context.audioFrames : ℝ)
      * (2 * Real.pi * s.g.gFrequency / context.audioSampleRate) ≤ 2 * Real.pi) :
    (∀ k, k ≤ context.audioFrames →
      (advancePhase Real.pi (setup P NO_ERR context s).2.1.g.gFrequency
          (setup P NO_ERR context s).2.1.g.gInverseSampleRate)^[k]
          (setup P NO_ERR context s).2.1.g.gPhase
        = (k : ℝ) * (2 * Real.pi * s.g.gFrequency / context.audioSampleRate)) ∧
    (∀ k, k < context.audioFrames → ∀ channel, channel < context.audioOutChannels →
      (render Real.pi Real.sin context
          (setup P NO_ERR context s).2.1.g).2[k * context.audioOutChannels + channel]?
        = some { frame := k, channel := channel,
                 value := 0.8 * Real.sin
                   ((k : ℝ) * (2 * Real.pi * s.g.gFrequency / context.audioSampleRate)) }) ∧
    (render Real.pi Real.sin context (setup P NO_ERR context s).2.1.g).1.gPhase
      = (context.audioFrames : ℝ)
          * (2 * Real.pi * s.g.gFrequency / context.audioSampleRate) := by
  have hpi := Real.pi_pos
  have hd : 2 * Real.pi * s.g.gFrequency * (1 / context.audioSampleRate)
      = 2 * Real.pi * s.g.gFrequency / context.audioSampleRate := by
    rw [mul_one_div]
  have hd0 : 0 ≤ 2 * Real.pi * s.g.gFrequency * (1 / context.audioSampleRate) := by
    rw [hd]
    positivity
  have hsteps : ∀ k, k ≤ context.audioFrames →
      (advancePhase Real.pi s.g.gFrequency (1 / context.audioSampleRate))^[k] 0
        = (k : ℝ) * (2 * Real.pi * s.g.gFrequency / context.audioSampleRate) := by
    intro k hk
    rw [← hd]
    apply iterate_advancePhase_of_le Real.pi _ _ hd0
    have hcast : (k : ℝ) ≤ (context.audioFrames : ℝ) := Nat.cast_le.mpr hk
    rw [hd] at hd0 ⊢
    nlinarith
  rw [setup_true_globals P NO_ERR context s hok]
  refine ⟨hsteps, ?_, ?_⟩
  · intro k hk channel hch
    have h := (render_frames Real.pi Real.sin context
      { gFrequency := s.g.gFrequency, gPhase := 0,
        gInverseSampleRate := 1 / context.audioSampleRate } context.audioFrames).2.2
      k hk channel hch
    rw [hsteps k hk.le] at h
    exact h
  · rw [render_gPhase]
    exact hsteps _ le_rfl

/-- The first iteration on the device at count `423` leaves
`gFrequency = 523`. -/
theorem scenario423_gFrequency : (scenario423 : Program ℝ Device).g.gFrequency = 523 := by
  have h : (scenario423 : Program ℝ Device).g.gFrequency
      = (((device.getEncoderValue device423).1 % 65536 + 100 : Nat) : ℝ) := rfl
  rw [h]
  have hc : (device.getEncoderValue device423).1 % 65536 + 100 = 523 := by decide
  rw [hc]
  norm_num

/-- Witness of C6: encoder count 423 gives `gFrequency = 523`; after `setup` at
44100 Hz, a block of 4 frames leaves the phase at `4 * (2π * 523 / 44100)`. -/
theorem render_block_after_setup_witness :
    (setup device 0 (context4 : BelaContext ℝ) scenario423).1 = true ∧
    (scenario423 : Program ℝ Device).g.gFrequency = 523 ∧
    (0 : ℝ) < (context4 : BelaContext ℝ).audioSampleRate ∧
    (render Real.pi Real.sin context4
        (setup device 0 (context4 : BelaContext ℝ) scenario423).2.1.g).1.gPhase
      = ((context4 : BelaContext ℝ).audioFrames : ℝ)
          * (2 * Real.pi * (scenario423 : Program ℝ Device).g.gFrequency
              / (context4 : BelaContext ℝ).audioSampleRate) :=
  have hsr : (0 : ℝ) < (context4 : BelaContext ℝ).audioSampleRate := by
    show (0 : ℝ) < 44100
    norm_num
  have hN : (((context4 : BelaContext ℝ).audioFrames : Nat) : ℝ)
      * (2 * Real.pi * (scenario423 : Program ℝ Device).g.gFrequency
          / (context4 : BelaContext ℝ).audioSampleRate) ≤ 2 * Real.pi := by
    rw [scenario423_gFrequency]
    show ((4 : Nat) : ℝ) * (2 * Real.pi * 523 / 44100) ≤ 2 * Real.pi
    have hpi := Real.pi_pos
    push_cast
    linarith
  ⟨rfl, scenario423_gFrequency, hsr,
    (render_block_after_setup device 0 context4 scenario423 rfl
      (by rw [scenario423_gFrequency]; norm_num) hsr hN).2.2⟩

end RealClaims

/-! ## The samples written, with the roundings of the C arithmetic -/

section RenderFloatTheorems

/-- The value of `roundHalfEven` is the floor or the floor plus one. -/
theorem roundHalfEven_mem (y : ℚ) :
    roundHalfEven y = ⌊y⌋ ∨ roundHalfEven y = ⌊y⌋ + 1 := by
  unfold roundHalfEven
  split_ifs <;> simp

/-- An integer is rounded to itself. -/
theorem roundHalfEven_intCast (k : ℤ) : roundHalfEven (k : ℚ) = k := by
  unfold roundHalfEven
  simp

/-- Rounding does not pass an integer above. -/
theorem roundHalfEven_le {y : ℚ} {k : ℤ} (h : y ≤ k) : roundHalfEven y ≤ k := by
  rcases eq_or_lt_of_le h with heq | hlt
  · rw [heq, roundHalfEven_intCast]
  · have hfl : ⌊y⌋ < k := Int.floor_lt.mpr hlt
    rcases roundHalfEven_mem y with h1 | h1 <;> rw [h1] <;> omega

/-- Rounding does not pass an integer below. -/
theorem le_roundHalfEven {y : ℚ} {k : ℤ} (h : (k : ℚ) ≤ y) : k ≤ roundHalfEven y := by
  have hfl : k ≤ ⌊y⌋ := Int.le_floor.mpr h
  rcases roundHalfEven_mem y with h1 | h1 <;> rw [h1] <;> omega

/-- A rational strictly within one half of the integer `n` is rounded to `n`. -/
theorem roundHalfEven_eq_of_near {y : ℚ} (n : ℤ) (h1 : (n : ℚ) - 1 / 2 < y)
    (h2 : y < (n : ℚ) + 1 / 2) : roundHalfEven y = n := by
  have hf1 : (⌊y⌋ : ℚ) ≤ y := Int.floor_le y
  have hf2 : y < (⌊y⌋ : ℚ) + 1 := Int.lt_floor_add_one y
  unfold roundHalfEven
  split_ifs with ha hb hc
  · have h3 : (n : ℚ) < (⌊y⌋ : ℚ) + 1 := by linarith
    have h4 : (⌊y⌋ : ℚ) < (n : ℚ) + 1 := by linarith
    have h5 : n < ⌊y⌋ + 1 := by exact_mod_cast h3
    have h6 : ⌊y⌋ < n + 1 := by exact_mod_cast h4
    omega
  · have h3 : (⌊y⌋ : ℚ) < (n : ℚ) := by linarith
    have h4 : (n : ℚ) < (⌊y⌋ : ℚ) + 2 := by linarith
    have h5 : ⌊y⌋ < n := by exact_mod_cast h3
    have h6 : n < ⌊y⌋ + 2 := by exact_mod_cast h4
    omega
  all_goals
    exfalso
    have heq : y - ⌊y⌋ = 1 / 2 := le_antisymm (not_lt.mp hb) (not_lt.mp ha)
    have h3 : (n : ℚ) - 1 < (⌊y⌋ : ℚ) := by linarith
    have h4 : (⌊y⌋ : ℚ) < (n : ℚ) := by linarith
    have h5 : n - 1 < ⌊y⌋ := by exact_mod_cast h3
    have h6 : ⌊y⌋ < n := by exact_mod_cast h4
    omega

/-- A positive rational below `2 ^ (e + 1)` has binary exponent at most `e`. -/
theorem log_two_le {r : ℚ} {e : ℤ} (hr : 0 < r) (h : r < (2 : ℚ) ^ (e + 1)) :
    Int.log 2 r ≤ e := by
  have h1 := (Int.lt_zpow_iff_log_lt (b := 2) (by norm_num) hr (x := e + 1)).mp
    (by exact_mod_cast h)
  omega

/-- Rounding in a known binade: for `2 ^ e ≤ |x| < 2 ^ (e + 1)` with `e` a
normal exponent, `x` is rounded to a multiple of `2 ^ (e - (p - 1))`. -/
theorem roundBinary_of_binade (p : ℕ) (emin : ℤ) (x : ℚ) (e : ℤ)
    (h1 : (2 : ℚ) ^ e ≤ |x|) (h2 : |x| < (2 : ℚ) ^ (e + 1)) (he : emin ≤ e) :
    roundBinary p emin x
      = (roundHalfEven (x / 2 ^ (e - (p - 1))) : ℚ) * 2 ^ (e - (p - 1)) := by
  have hpos : 0 < |x| := lt_of_lt_of_le (by positivity) h1
  have hx : x ≠ 0 := abs_pos.mp hpos
  have hlog : Int.log 2 |x| = e :=
    le_antisymm (log_two_le hpos h2)
      ((Int.zpow_le_iff_le_log (b := 2) (by norm_num) hpos).mp (by exact_mod_cast h1))
  simp only [roundBinary, if_neg hx, hlog, max_eq_left he]

/-- Rounding does not pass a number of the format: when `c = m * 2 ^ k` has at
most `p` significant bits at an exponent the format has, `|x| ≤ c` gives
`|roundBinary p emin x| ≤ c`. -/
theorem roundBinary_abs_le (p : ℕ) (emin : ℤ) (x : ℚ) (m : ℕ) (k : ℤ)
    (hlog : Int.log 2 ((m : ℚ) * 2 ^ k) ≤ k + (p - 1)) (hemin : emin ≤ k + (p - 1))
    (hx : |x| ≤ (m : ℚ) * 2 ^ k) :
    |roundBinary p emin x| ≤ (m : ℚ) * 2 ^ k := by
  by_cases hx0 : x = 0
  · simp only [roundBinary, if_pos hx0, abs_zero]
    positivity
  · have hpos : 0 < |x| := abs_pos.mpr hx0
    have he : max (Int.log 2 |x|) emin ≤ k + (p - 1) :=
      max_le ((Int.log_mono_right hpos hx).trans hlog) hemin
    simp only [roundBinary, if_neg hx0]
    generalize max (Int.log 2 |x|) emin = e at he
    obtain ⟨j, hj⟩ : ∃ j : ℕ, k = e - (p - 1) + j := ⟨(k - (e - (p - 1))).toNat, by omega⟩
    have hq : (0 : ℚ) < 2 ^ (e - ((p : ℤ) - 1)) := by positivity
    have hc : (m : ℚ) * 2 ^ k = ((m * 2 ^ j : ℕ) : ℤ) * (2 : ℚ) ^ (e - ((p : ℤ) - 1)) := by
      rw [hj, zpow_add₀ (by norm_num : (2 : ℚ) ≠ 0)]
      push_cast
      rw [zpow_natCast]
      ring
    rw [hc] at hx ⊢
    rw [abs_mul, abs_of_pos hq]
    apply mul_le_mul_of_nonneg_right _ hq.le
    have hxq : |x / 2 ^ (e - ((p : ℤ) - 1))| ≤ (((m * 2 ^ j : ℕ) : ℤ) : ℚ) := by
      rw [abs_div, abs_of_pos hq, div_le_iff₀ hq]
      exact hx
    obtain ⟨hlo, hhi⟩ := abs_le.mp hxq
    have h3 := roundHalfEven_le hhi
    have h4 : -((m * 2 ^ j : ℕ) : ℤ) ≤ roundHalfEven (x / 2 ^ (e - ((p : ℤ) - 1))) :=
      le_roundHalfEven (by push_cast at hlo ⊢; exact hlo)
    rw [← Int.cast_abs]
    exact_mod_cast abs_le.mpr ⟨h4, h3⟩

/-- The `double` literal `0.8` is `3602879701896397 / 2 ^ 52`. -/
theorem toDouble_literal : toDouble 0.8 = 3602879701896397 / 4503599627370496 := by
  unfold toDouble
  rw [roundBinary_of_binade 53 (-1022) 0.8 (-1) (by norm_num [abs_of_pos])
    (by norm_num [abs_of_pos]) (by norm_num)]
  rw [roundHalfEven_eq_of_near 7205759403792794 (by norm_num) (by norm_num)]
  norm_num

/-- The `double` `0.8` is a `double`: rounding keeps it. -/
theorem toDouble_double :
    toDouble (3602879701896397 / 4503599627370496)
      = 3602879701896397 / 4503599627370496 := by
  unfold toDouble
  rw [roundBinary_of_binade 53 (-1022) _ (-1) (by norm_num [abs_of_pos])
    (by norm_num [abs_of_pos]) (by norm_num)]
  rw [roundHalfEven_eq_of_near 7205759403792794 (by norm_num) (by norm_num)]
  norm_num

/-- The `double` `0.8` narrowed to `float` is `13421773 / 2 ^ 24`. -/
theorem toFloat_double :
    toFloat (3602879701896397 / 4503599627370496) = 13421773 / 16777216 := by
  unfold toFloat
  rw [roundBinary_of_binade 24 (-126) _ (-1) (by norm_num [abs_of_pos])
    (by norm_num [abs_of_pos]) (by norm_num)]
  rw [roundHalfEven_eq_of_near 13421773 (by norm_num) (by norm_num)]
  norm_num

/-- A `double` result bounded by the `double` `0.8` stays bounded by it. -/
theorem abs_toDouble_le (x : ℚ) (hx : |x| ≤ 3602879701896397 / 4503599627370496) :
    |toDouble x| ≤ 3602879701896397 / 4503599627370496 := by
  have hc : (3602879701896397 / 4503599627370496 : ℚ)
      = ((3602879701896397 : ℕ) : ℚ) * 2 ^ (-52 : ℤ) := by norm_num
  rw [hc] at hx ⊢
  exact roundBinary_abs_le 53 (-1022) x 3602879701896397 (-52)
    (log_two_le (by norm_num) (by norm_num)) (by norm_num) hx

/-- A value bounded by the `float` `13421773 / 2 ^ 24` stays bounded by it when
it is narrowed to `float`. -/
theorem abs_toFloat_le (x : ℚ) (hx : |x| ≤ 13421773 / 16777216) :
    |toFloat x| ≤ 13421773 / 16777216 := by
  have hc : (13421773 / 16777216 : ℚ) = ((13421773 : ℕ) : ℚ) * 2 ^ (-24 : ℤ) := by
    norm_num
  rw [hc] at hx ⊢
  exact roundBinary_abs_le 24 (-126) x 13421773 (-24)
    (log_two_le (by norm_num) (by norm_num)) (by norm_num) hx

/-- When `sinf` returns `1`, the sample of line 104 is the `float` nearest to
`0.8`. -/
theorem oscSampleFloat_of_one (sinf : ℚ → ℚ) (gPhase : ℚ) (h : sinf gPhase = 1) :
    oscSampleFloat sinf gPhase = 13421773 / 16777216 := by
  unfold oscSampleFloat
  rw [h, mul_one, toDouble_literal, toDouble_double, toFloat_double]

/-- When `sinf` returns a value in `[-1, 1]`, the sample of line 104 is at most
the `float` nearest to `0.8` in absolute value. -/
theorem abs_oscSampleFloat_le (sinf : ℚ → ℚ) (gPhase : ℚ) (h : |sinf gPhase| ≤ 1) :
    |oscSampleFloat sinf gPhase| ≤ 13421773 / 16777216 := by
  unfold oscSampleFloat
  rw [toDouble_literal]
  apply abs_toFloat_le
  have h1 : |toDouble (3602879701896397 / 4503599627370496 * sinf gPhase)|
      ≤ 3602879701896397 / 4503599627370496 := by
    apply abs_toDouble_le
    rw [abs_mul, abs_of_pos (by norm_num : (0 : ℚ) < 3602879701896397 / 4503599627370496)]
    nlinarith [abs_nonneg (sinf gPhase)]
  have h2 : (3602879701896397 / 4503599627370496 : ℚ) ≤ 13421773 / 16777216 := by norm_num
  exact h1.trans h2

/-- Every value the outer loop of `renderFloat` writes is a sample
`oscSampleFloat`. -/
theorem foldl_renderFrameFloat_values (M_PI : ℚ) (sinf : ℚ → ℚ) (context : BelaContext ℚ)
    (Q : ℚ → Prop) (hQ : ∀ phase, Q (oscSampleFloat sinf phase)) (frames : List Nat)
    (st : Globals ℚ × List (AudioWrite ℚ)) (hst : ∀ w ∈ st.2, Q w.value) :
    ∀ w ∈ (frames.foldl (renderFrameFloat M_PI sinf context) st).2, Q w.value := by
  induction frames generalizing st with
  | nil => exact hst
  | cons n frames ih =>
    rw [List.foldl_cons]
    apply ih
    intro w hw
    simp only [renderFrameFloat, List.mem_append] at hw
    rcases hw with hw | hw
    · exact hst w hw
    · simp only [writeChannels, List.mem_map] at hw
      obtain ⟨channel, _, rfl⟩ := hw
      exact hQ _

/-- The one write of a block of one frame and one channel. -/
theorem renderFloat_context1 (M_PI : ℚ) (sinf : ℚ → ℚ) (g : Globals ℚ) :
    (renderFloat M_PI sinf context1 g).2
      = [{ frame := 0, channel := 0, value := oscSampleFloat sinf g.gPhase }] := by
  simp [renderFloat, context1, renderFrameFloat, writeChannels, List.range_succ]

/-- C3, as stated, fails on the values the program writes: with `gPhase` at the
`float` nearest to `π / 2`, where `sinf` returns `1.0f`, `render` writes
`(float)(0.8 * 1.0) = 13421773 / 2 ^ 24`, which is above `0.8`. -/
theorem render_sample_above_amplitude_counterexample :
    sinfNearHalfPi globalsNearHalfPi.gPhase = 1 ∧
    (renderFloat M_PI_double sinfNearHalfPi context1 globalsNearHalfPi).2
      = [{ frame := 0, channel := 0, value := 13421773 / 16777216 }] ∧
    ¬ ((13421773 / 16777216 : ℚ) ≤ 0.8) := by
  have h1 : sinfNearHalfPi globalsNearHalfPi.gPhase = 1 := by
    simp [sinfNearHalfPi, globalsNearHalfPi]
  refine ⟨h1, ?_, by norm_num⟩
  rw [renderFloat_context1, oscSampleFloat_of_one _ _ h1]

/-- C3, amended: for every real phase the sample `0.8 * sin(phase)` has
absolute value at most `0.8`, so with the arithmetic read over the reals every
value `render` writes lies in `[-0.8, 0.8]`; the `float` the program writes,
`(float)(0.8 * sinf(gPhase))`, has absolute value at most `13421773 / 2 ^ 24`,
the `float` nearest to `0.8`, whenever `sinf` returns values in `[-1, 1]`, and
it is that bound when `sinf` returns `1`. -/
theorem render_sample_bounded (M_PI : ℚ) (sinf : ℚ → ℚ) (hsin : ∀ x, |sinf x| ≤ 1)
    (context : BelaContext ℚ) (g : Globals ℚ) :
    (∀ phase : ℝ, |oscSample Real.sin phase| ≤ 0.8) ∧
    (∀ (contextR : BelaContext ℝ) (gR : Globals ℝ),
      ∀ w ∈ (render Real.pi Real.sin contextR gR).2, -0.8 ≤ w.value ∧ w.value ≤ 0.8) ∧
    (∀ w ∈ (renderFloat M_PI sinf context g).2, |w.value| ≤ 13421773 / 16777216) ∧
    (∀ phase, sinf phase = 1 → oscSampleFloat sinf phase = 13421773 / 16777216) := by
  refine ⟨abs_oscSample_le, ?_, ?_, fun phase h => oscSampleFloat_of_one sinf phase h⟩
  · intro contextR gR
    apply foldl_renderFrame_values Real.pi Real.sin contextR
      (fun v => -0.8 ≤ v ∧ v ≤ 0.8) (fun phase => abs_le.mp (abs_oscSample_le phase))
    intro w hw
    simp at hw
  · apply foldl_renderFrameFloat_values M_PI sinf context
      (fun v => |v| ≤ 13421773 / 16777216)
      (fun phase => abs_oscSampleFloat_le sinf phase (hsin phase))
    intro w hw
    simp at hw

/-- Witness of the amended C3: the block of one frame with the phase at the
`float` nearest to `π / 2`; the value written is `13421773 / 2 ^ 24`. -/
theorem render_sample_bounded_witness :
    (∀ x, |sinfNearHalfPi x| ≤ 1) ∧
    ({ frame := 0, channel := 0, value := 13421773 / 16777216 } : AudioWrite ℚ)
      ∈ (renderFloat M_PI_double sinfNearHalfPi context1 globalsNearHalfPi).2 ∧
    |(13421773 / 16777216 : ℚ)| ≤ 13421773 / 16777216 :=
  have hsin : ∀ x, |sinfNearHalfPi x| ≤ 1 := by
    intro x
    unfold sinfNearHalfPi
    split_ifs <;> norm_num
  have hmem : ({ frame := 0, channel := 0, value := 13421773 / 16777216 } : AudioWrite ℚ)
      ∈ (renderFloat M_PI_double sinfNearHalfPi context1 globalsNearHalfPi).2 := by
    rw [renderFloat_context1, oscSampleFloat_of_one _ _
      (by simp [sinfNearHalfPi, globalsNearHalfPi])]
    simp
  have hbound : |(13421773 / 16777216 : ℚ)| ≤ 13421773 / 16777216 :=
    (render_sample_bounded M_PI_double sinfNearHalfPi hsin context1
      globalsNearHalfPi).2.2.1
      { frame := 0, channel := 0, value := 13421773 / 16777216 } hmem
  ⟨hsin, hmem, hbound⟩

end RenderFloatTheorems

end VisualRotaryEncoder
